import Mathlib

/-!
# StreetsMart front end (`script.js`): voice commands, payment simulation, ledger

A shallow embedding of the `AppState` class of `script.js`.

* JavaScript strings are lists of characters.
* Host built-ins whose result is a JavaScript number (`parseFloat`, `parseInt`,
  `+`, `*`, numeric literals) and the method `String.prototype.toLowerCase` are the
  fields of a `Host` record over an arbitrary number type, so every statement holds
  for whatever the host computes.
* `Date.now()` readings and the `Math.random()` draw are explicit arguments.
* Calls into the browser (speech synthesis, DOM) are recorded as a list of effects.
-/

namespace StreetsMart

/-! ## Strings -/

/-- JavaScript string values. -/
abbrev JSString := List Char

/-- Code points that `String.prototype.trim` strips: ECMAScript WhiteSpace and
LineTerminator. -/
def isWhiteSpace (c : Char) : Bool :=
  decide (c.toNat ∈ [9, 10, 11, 12, 13, 32, 160, 5760, 8232, 8233, 8239, 8287, 12288, 65279])
    || (decide (8192 ≤ c.toNat) && decide (c.toNat ≤ 8202))

/-- The method `String.prototype.trim`: white space is removed at both ends. -/
def trim (s : JSString) : JSString :=
  ((s.dropWhile isWhiteSpace).reverse.dropWhile isWhiteSpace).reverse

/-- The method `String.prototype.includes`: `pat` occurs in `s` as a contiguous block. -/
def includes : JSString → JSString → Bool
  | [], pat => pat.isPrefixOf []
  | c :: s, pat => pat.isPrefixOf (c :: s) || includes s pat

/-- The call `cmd.replace(/search|item/g, '')`: scanning from the left, each match of
`search` or `item` is dropped and the scan resumes behind it. The first argument
counts the characters of the current match that are still to be dropped. -/
def replaceSearchItem : Nat → JSString → JSString
  | _, [] => []
  | k + 1, _ :: s => replaceSearchItem k s
  | 0, c :: s =>
    if "search".toList.isPrefixOf (c :: s) then replaceSearchItem 5 s
    else if "item".toList.isPrefixOf (c :: s) then replaceSearchItem 3 s
    else c :: replaceSearchItem 0 s

/-! ## Host numbers and effects -/

/-- The built-ins the program takes from the host: the number operations, and the
lower-casing of strings, which covers every cased letter of Unicode and is not modelled
letter by letter. -/
structure Host (Num : Type) where
  /-- The method `String.prototype.toLowerCase`. -/
  toLowerCase : JSString → JSString
  /-- A numeric literal. -/
  lit : Nat → Num
  /-- The operator `+` on numbers. -/
  add : Num → Num → Num
  /-- The operator `*` on numbers. -/
  mul : Num → Num → Num
  /-- The global `parseFloat`. -/
  parseFloat : JSString → Num
  /-- The global `parseInt`. -/
  parseInt : JSString → Num

/-- One part of a template literal. -/
inductive Piece (Num : Type) where
  /-- Literal text, or an interpolated string. -/
  | str (s : JSString)
  /-- An interpolated number. -/
  | num (n : Num)
  /-- An interpolated array length. -/
  | len (n : Nat)
  /-- An interpolated `n.toFixed(2)`. -/
  | fixed2 (n : Num)
  deriving DecidableEq

/-- Calls the program makes into the browser. -/
inductive Effect (Num : Type) where
  /-- The call `this.speak(text)`. -/
  | speak (text : List (Piece Num))
  /-- The call `document.getElementById(id).click()`. -/
  | click (id : JSString)
  /-- The call `document.getElementById(id).scrollIntoView(...)`. -/
  | scrollIntoView (id : JSString)
  /-- The call `this.filterInventoryDisplay(term)`. -/
  | filterInventoryDisplay (term : JSString)
  deriving DecidableEq

/-- An entry of `this.inventory`. -/
structure InventoryItem (Num : Type) where
  id : Int
  name : JSString
  price : Num
  quantity : Num
  category : JSString
  /-- The creation time in milliseconds; the source stores its ISO rendering. -/
  createdAt : Int
  deriving DecidableEq

/-! ## Voice commands -/

/-- The method `searchInventory(term)`. -/
def searchInventory {Num : Type} (h : Host Num) (inventory : List (InventoryItem Num))
    (term : JSString) : List (Effect Num) :=
  let results := inventory.filter fun item =>
    includes (h.toLowerCase item.name) (h.toLowerCase term) ||
    includes (h.toLowerCase item.category) (h.toLowerCase term)
  if results.length > 0 then
    [.speak [.str "Found ".toList, .len results.length, .str " items matching ".toList, .str term],
     .filterInventoryDisplay term]
  else
    [.speak [.str "No items found matching ".toList, .str term]]

/-- The method `processVoiceCommand(command)`, as the list of browser calls it makes. -/
def processVoiceCommand {Num : Type} (h : Host Num) (inventory : List (InventoryItem Num))
    (command : JSString) : List (Effect Num) :=
  let cmd := trim (h.toLowerCase command)
  if includes cmd "add item".toList || includes cmd "new item".toList then
    [.speak [.str "Opening add item form".toList], .click "addItem".toList]
  else if includes cmd "view inventory".toList || includes cmd "show inventory".toList then
    [.speak [.str "Showing inventory".toList], .scrollIntoView "inventory".toList]
  else if includes cmd "view transactions".toList || includes cmd "show transactions".toList then
    [.speak [.str "Showing transactions".toList], .scrollIntoView "transactions".toList]
  else if includes cmd "make payment".toList || includes cmd "upi payment".toList then
    [.speak [.str "Opening payment form".toList], .scrollIntoView "payments".toList]
  else if includes cmd "search".toList && includes cmd "item".toList then
    let searchTerm := trim (replaceSearchItem 0 cmd)
    searchInventory h inventory searchTerm
  else if includes cmd "total inventory".toList || includes cmd "inventory count".toList then
    let total := inventory.foldl (fun sum item => h.add sum item.quantity) (h.lit 0)
    [.speak [.str "Total inventory items: ".toList, .num total]]
  else if includes cmd "total value".toList || includes cmd "inventory value".toList then
    let totalValue :=
      inventory.foldl (fun sum item => h.add sum (h.mul item.price item.quantity)) (h.lit 0)
    [.speak [.str "Total inventory value: ₹".toList, .fixed2 totalValue]]
  else if includes cmd "help".toList || includes cmd "commands".toList then
    [.speak [.str ("Available commands: add item, view inventory, view transactions, " ++
      "make payment, search items, total inventory, total value").toList]]
  else
    [.speak [.str "I didn\x27t understand that command. Say help for available commands.".toList]]

/-- The intents of the voice-command interpreter. -/
inductive Intent where
  | addItem
  | viewInventory
  | viewTransactions
  | makePayment
  | searchItem
  | totalInventoryCount
  | totalInventoryValue
  | help
  | unrecognized
  deriving DecidableEq, Repr

/-- The phrase table of the specification, in its priority order: each intent with the
test on the normalised transcript that selects it. -/
def specRules : List (Intent × (JSString → Bool)) :=
  [(.addItem, fun cmd => includes cmd "add item".toList || includes cmd "new item".toList),
   (.viewInventory,
      fun cmd => includes cmd "view inventory".toList || includes cmd "show inventory".toList),
   (.viewTransactions,
      fun cmd => includes cmd "view transactions".toList || includes cmd "show transactions".toList),
   (.makePayment,
      fun cmd => includes cmd "make payment".toList || includes cmd "upi payment".toList),
   (.searchItem, fun cmd => includes cmd "search".toList && includes cmd "item".toList),
   (.totalInventoryCount,
      fun cmd => includes cmd "total inventory".toList || includes cmd "inventory count".toList),
   (.totalInventoryValue,
      fun cmd => includes cmd "total value".toList || includes cmd "inventory value".toList),
   (.help, fun cmd => includes cmd "help".toList || includes cmd "commands".toList)]

/-- Classification as the specification words it: the intent of the first rule of the
table that matches, and `unrecognized` when none does. -/
def specClassify (cmd : JSString) : Intent :=
  match specRules.find? (fun rule => rule.2 cmd) with
  | some rule => rule.1
  | none => .unrecognized

/-- The action the specification attaches to each intent, on the normalised transcript
`cmd`. -/
def specRespond {Num : Type} (h : Host Num) (inventory : List (InventoryItem Num))
    (cmd : JSString) : Intent → List (Effect Num)
  | .addItem => [.speak [.str "Opening add item form".toList], .click "addItem".toList]
  | .viewInventory =>
    [.speak [.str "Showing inventory".toList], .scrollIntoView "inventory".toList]
  | .viewTransactions =>
    [.speak [.str "Showing transactions".toList], .scrollIntoView "transactions".toList]
  | .makePayment =>
    [.speak [.str "Opening payment form".toList], .scrollIntoView "payments".toList]
  | .searchItem => searchInventory h inventory (trim (replaceSearchItem 0 cmd))
  | .totalInventoryCount =>
    [.speak [.str "Total inventory items: ".toList,
      .num (inventory.foldl (fun sum item => h.add sum item.quantity) (h.lit 0))]]
  | .totalInventoryValue =>
    [.speak [.str "Total inventory value: ₹".toList,
      .fixed2 (inventory.foldl (fun sum item => h.add sum (h.mul item.price item.quantity))
        (h.lit 0))]]
  | .help =>
    [.speak [.str ("Available commands: add item, view inventory, view transactions, " ++
      "make payment, search items, total inventory, total value").toList]]
  | .unrecognized =>
    [.speak [.str "I didn\x27t understand that command. Say help for available commands.".toList]]

/-! ## Application state -/

/-- An entry of `this.transactions`. -/
structure Transaction (Num : Type) where
  id : Int
  description : JSString
  amount : Num
  type : JSString
  status : JSString
  /-- The time in milliseconds; the source stores its ISO rendering. -/
  date : Int
  deriving DecidableEq

/-- The class of the `paymentStatus` element: `payment-status` alone, or with
`processing`, `success` or `error`. -/
inductive PaymentStatus where
  | ready
  | processing
  | success
  | error
  deriving DecidableEq, Repr

/-- The fields of `AppState` the modelled methods read and write, the status element
of the payment form, and the calls made into the browser so far. Writing to local
storage and re-rendering the lists are left out. -/
structure AppState (Num : Type) where
  inventory : List (InventoryItem Num)
  transactions : List (Transaction Num)
  paymentStatus : PaymentStatus
  log : List (Effect Num)
  deriving DecidableEq

/-- The method `speak(text)`. -/
def speak {Num : Type} (s : AppState Num) (text : List (Piece Num)) : AppState Num :=
  { s with log := s.log ++ [.speak text] }

/-- The data read from the add-item form, as strings. -/
structure ItemData where
  name : JSString
  price : JSString
  quantity : JSString
  category : JSString
  deriving DecidableEq

/-- The data read from the payment form. -/
structure PaymentData where
  recipient : JSString
  amount : JSString
  description : JSString
  deriving DecidableEq

/-- The method `addItem(itemData)`; `now` is the reading of `Date.now()` and `created`
the one of `new Date()`. -/
def addItem {Num : Type} (h : Host Num) (s : AppState Num) (itemData : ItemData)
    (now created : Int) : AppState Num :=
  let newItem : InventoryItem Num :=
    { id := now
      name := itemData.name
      price := h.parseFloat itemData.price
      quantity := h.parseInt itemData.quantity
      category := itemData.category
      createdAt := created }
  speak { s with inventory := s.inventory ++ [newItem] }
    [.str "Added ".toList, .str newItem.name, .str " to inventory".toList]

/-- The second argument of `updateItem`: the fields to overwrite. -/
structure ItemUpdates (Num : Type) where
  id : Option Int
  name : Option JSString
  price : Option Num
  quantity : Option Num
  category : Option JSString
  createdAt : Option Int

/-- The object spread of an item with the updates: a field of `updates` wins. -/
def mergeItem {Num : Type} (item : InventoryItem Num) (updates : ItemUpdates Num) :
    InventoryItem Num :=
  { id := updates.id.getD item.id
    name := updates.name.getD item.name
    price := updates.price.getD item.price
    quantity := updates.quantity.getD item.quantity
    category := updates.category.getD item.category
    createdAt := updates.createdAt.getD item.createdAt }

/-- The method `updateItem(id, updates)`. -/
def updateItem {Num : Type} (s : AppState Num) (id : Int) (updates : ItemUpdates Num) :
    AppState Num :=
  match s.inventory.findIdx? (fun item => item.id == id) with
  | some index =>
    match s.inventory[index]? with
    | some item => { s with inventory := s.inventory.set index (mergeItem item updates) }
    | none => s
  | none => s

/-- The method `deleteItem(id)`. -/
def deleteItem {Num : Type} (s : AppState Num) (id : Int) : AppState Num :=
  speak { s with inventory := s.inventory.filter (fun item => item.id != id) }
    [.str "Item deleted from inventory".toList]

/-- The method `addTransaction(transactionData)`: `unshift` puts the entry in front. -/
def addTransaction {Num : Type} (s : AppState Num) (transactionData : Transaction Num) :
    AppState Num :=
  { s with transactions := transactionData :: s.transactions }

/-! ## Payment simulation -/

/-- The double that the literal `0.1` denotes, as an exact fraction. A double is a
rational number and `>` on doubles is the order of the rationals. -/
def pointOne : Rat := 3602879701896397 / 36028797018963968

/-- The code of `processPayment` before its `await`: the status element shows that the
payment is processing. -/
def processPaymentStart {Num : Type} (s : AppState Num) : AppState Num :=
  { s with paymentStatus := .processing }

/-- The code of `processPayment` behind its `await`, up to the point where the reset
timer is set: `random` is the value of `Math.random()`, `now` the reading of
`Date.now()` and `dated` the one of `new Date()`. -/
def processPaymentResume {Num : Type} (h : Host Num) (s : AppState Num)
    (paymentData : PaymentData) (random : Rat) (now dated : Int) : AppState Num :=
  let isSuccess := decide (random > pointOne)
  if isSuccess then
    speak
      (addTransaction { s with paymentStatus := .success }
        { id := now
          description :=
            if paymentData.description ≠ [] then paymentData.description
            else "Payment to ".toList ++ paymentData.recipient
          amount := h.parseFloat paymentData.amount
          type := "payment".toList
          status := "completed".toList
          date := dated })
      [.str "Payment completed successfully".toList]
  else
    speak { s with paymentStatus := .error } [.str "Payment failed. Please try again".toList]

/-- The callback of the reset timer of `processPayment`. -/
def processPaymentReset {Num : Type} (s : AppState Num) : AppState Num :=
  { s with paymentStatus := .ready }

/-- One call of `processPayment(paymentData)` from its start to the point where it
returns, with no other event handled while it waits. -/
def processPayment {Num : Type} (h : Host Num) (s : AppState Num) (paymentData : PaymentData)
    (random : Rat) (now dated : Int) : AppState Num :=
  processPaymentResume h (processPaymentStart s) paymentData random now dated

/-- The events of the payment form that the event loop delivers. -/
inductive PaymentEvent where
  /-- The form is submitted with the given field values. -/
  | submit (paymentData : PaymentData)
  /-- The 2000 ms delay of the oldest waiting `processPayment` call has passed. -/
  | delayElapsed (random : Rat) (now dated : Int)
  /-- The oldest pending reset timer fires. -/
  | resetElapsed

/-- The application state together with the timers of the payment form. -/
structure PaymentSim (Num : Type) where
  app : AppState Num
  /-- The calls of `processPayment` that wait at the `await`, oldest first. -/
  inFlight : List PaymentData
  /-- The number of reset timers that are set and have not fired. -/
  resets : Nat
  deriving DecidableEq

/-- The handler that runs for one event. The submit handler reads the form and calls
`processPayment`; timers of equal delay fire in the order in which they were set. -/
def paymentStep {Num : Type} (h : Host Num) (sim : PaymentSim Num) :
    PaymentEvent → PaymentSim Num
  | .submit paymentData =>
    { sim with app := processPaymentStart sim.app, inFlight := sim.inFlight ++ [paymentData] }
  | .delayElapsed random now dated =>
    match sim.inFlight with
    | [] => sim
    | paymentData :: rest =>
      { app := processPaymentResume h sim.app paymentData random now dated
        inFlight := rest
        resets := sim.resets + 1 }
  | .resetElapsed =>
    match sim.resets with
    | 0 => sim
    | k + 1 => { sim with app := processPaymentReset sim.app, resets := k }

/-- The state after a sequence of events. -/
def paymentRun {Num : Type} (h : Host Num) (sim : PaymentSim Num) (events : List PaymentEvent) :
    PaymentSim Num :=
  events.foldl (paymentStep h) sim

/-- The payment form at rest: no call waits and no timer is set. -/
def paymentIdle {Num : Type} (app : AppState Num) : PaymentSim Num :=
  { app := { app with paymentStatus := .ready }, inFlight := [], resets := 0 }

/-! ## Sample data -/

/-- The array `sampleItems`; the numbers are written the way `parseFloat` and `parseInt`
read them, as strings. -/
def sampleItems : List ItemData :=
  [{ name := "Laptop".toList, price := "45000".toList, quantity := "5".toList,
     category := "electronics".toList },
   { name := "Smartphone".toList, price := "25000".toList, quantity := "10".toList,
     category := "electronics".toList },
   { name := "T-Shirt".toList, price := "500".toList, quantity := "50".toList,
     category := "clothing".toList },
   { name := "Book".toList, price := "300".toList, quantity := "25".toList,
     category := "books".toList },
   { name := "Headphones".toList, price := "2000".toList, quantity := "15".toList,
     category := "electronics".toList }]

/-- The loop `items.forEach(item => this.addItem(item))`; the call for an item reads the
clock twice, `k` counts the readings made so far. -/
def addItemsForEach {Num : Type} (h : Host Num) (clock : Nat → Int) :
    Nat → List ItemData → AppState Num → AppState Num
  | _, [], s => s
  | k, item :: rest, s =>
    addItemsForEach h clock (k + 2) rest (addItem h s item (clock k) (clock (k + 1)))

/-- The array `sampleTransactions`, built with four clock readings from the `k`-th on. -/
def sampleTransactions {Num : Type} (h : Host Num) (clock : Nat → Int) (k : Nat) :
    List (Transaction Num) :=
  [{ id := clock k - 1000
     description := "Payment to supplier".toList
     amount := h.lit 50000
     type := "payment".toList
     status := "completed".toList
     date := clock (k + 1) - 86400000 },
   { id := clock (k + 2) - 2000
     description := "Customer refund".toList
     amount := h.lit 2500
     type := "refund".toList
     status := "completed".toList
     date := clock (k + 3) - 172800000 }]

/-- The method `generateSampleData()`; `clock k` is the `k`-th clock reading of the call. -/
def generateSampleData {Num : Type} (h : Host Num) (s : AppState Num) (clock : Nat → Int) :
    AppState Num :=
  let inventoryEmpty := decide (s.inventory.length = 0)
  let s1 := if inventoryEmpty then addItemsForEach h clock 0 sampleItems s else s
  let k := if inventoryEmpty then 2 * sampleItems.length else 0
  if s1.transactions.length = 0 then
    (sampleTransactions h clock k).foldl addTransaction s1
  else s1

/-- A sequence of `addItem` calls, each with its form data and its two clock readings. -/
def addItems {Num : Type} (h : Host Num) (s : AppState Num)
    (calls : List (ItemData × Int × Int)) : AppState Num :=
  calls.foldl (fun s call => addItem h s call.1 call.2.1 call.2.2) s

/-- The state with which the constructor starts when local storage is empty. -/
def emptyState (Num : Type) : AppState Num :=
  { inventory := [], transactions := [], paymentStatus := .ready, log := [] }

/-- The ledger is in reverse chronological order: no entry is older than the next. -/
def newestFirst {Num : Type} (transactions : List (Transaction Num)) : Prop :=
  transactions.Chain' (fun a b => b.date ≤ a.date)

/-- Lower-casing of one ASCII character; every other character is kept. -/
def asciiLowerChar (c : Char) : Char :=
  if 65 ≤ c.toNat ∧ c.toNat ≤ 90 then Char.ofNat (c.toNat + 32) else c

/-- Lower-casing of the letters A to Z alone: what `toLowerCase` returns on a text all of
whose characters are ASCII. -/
def asciiToLowerCase (s : JSString) : JSString := s.map asciiLowerChar

/-- A host that reads unsigned decimal numerals, over the integers, and lower-cases the
ASCII letters; it serves to evaluate the definitions on examples of ASCII text. -/
def digitHost : Host Int :=
  { toLowerCase := asciiToLowerCase
    lit := fun n => n
    add := fun a b => a + b
    mul := fun a b => a * b
    parseFloat := fun s => s.foldl (fun n c => 10 * n + (c.toNat - 48 : Int)) 0
    parseInt := fun s => s.foldl (fun n c => 10 * n + (c.toNat - 48 : Int)) 0 }

/-- An inventory of three entries with the identifiers 1, 2 and 3. -/
def threeItems : List (InventoryItem Int) :=
  [{ id := 1, name := "Laptop".toList, price := 45000, quantity := 5,
     category := "electronics".toList, createdAt := 1 },
   { id := 2, name := "Book".toList, price := 300, quantity := 25,
     category := "books".toList, createdAt := 2 },
   { id := 3, name := "T-Shirt".toList, price := 500, quantity := 50,
     category := "clothing".toList, createdAt := 3 }]

/-! ## Transaction filter -/

/-- The number of milliseconds of a day. -/
def msPerDay : Int := 86400000

/-- The number of the local calendar day on which the time `t` falls, counted from
1 January 1970: ECMAScript `Day(LocalTime(t))`. The host supplies `localTZA`, the offset
of local time from UTC in milliseconds at a given time. -/
def localDay (localTZA : Int → Int) (t : Int) : Int := (t + localTZA t) / msPerDay

/-- A date of the Gregorian calendar; months count from 1. -/
structure CivilDate where
  year : Int
  month : Int
  date : Int
  deriving DecidableEq, Repr

/-- The century, 0 to 3, of a day of a 400-year era; days count from 1 March. -/
def centuryOfEra (doe : Int) : Int := if doe / 36524 ≤ 3 then doe / 36524 else 3

/-- The day within its century. -/
def dayOfCentury (doe : Int) : Int := doe - centuryOfEra doe * 36524

/-- The year, 0 to 3, of a day of a four-year cycle. -/
def yearOfCycle (doq : Int) : Int := if doq / 365 ≤ 3 then doq / 365 else 3

/-- The year, 0 to 399, of a day of a 400-year era. -/
def yearOfEra (doe : Int) : Int :=
  centuryOfEra doe * 100 + dayOfCentury doe / 1461 * 4 + yearOfCycle (dayOfCentury doe % 1461)

/-- The day within its year, the year starting on 1 March. -/
def dayOfYear (doe : Int) : Int :=
  dayOfCentury doe % 1461 - yearOfCycle (dayOfCentury doe % 1461) * 365

/-- The month, 0 for March to 11 for February, of a day of the year. -/
def monthIndex (doy : Int) : Int := (5 * doy + 2) / 153

/-- The calendar date of day `doe` of the 400-year era `era`. -/
def civilFromEra (era doe : Int) : CivilDate :=
  let doy := dayOfYear doe
  let mp := monthIndex doy
  let m := if mp < 10 then mp + 3 else mp - 9
  { year := era * 400 + yearOfEra doe + (if m ≤ 2 then 1 else 0)
    month := m
    date := doy - (153 * mp + 2) / 5 + 1 }

/-- The calendar date of a day number: ECMAScript `YearFromTime`, `MonthFromTime` and
`DateFromTime`. The eras start on 1 March of the year 0, which is day -719468. -/
def civilFromDay (day : Int) : CivilDate :=
  civilFromEra ((day + 719468) / 146097) ((day + 719468) % 146097)

/-- The day number of a calendar date. -/
def dayFromCivil (c : CivilDate) : Int :=
  let y := c.year - (if c.month ≤ 2 then 1 else 0)
  let era := y / 400
  let yoe := y % 400
  let mp := if c.month > 2 then c.month - 3 else c.month + 9
  let doy := (153 * mp + 2) / 5 + c.date - 1
  era * 146097 + (yoe * 365 + yoe / 4 - yoe / 100 + doy) - 719468

/-- What the text of `Date.prototype.toDateString` names: the day of the week (0 for
Sunday), the month, the day of the month and the year, all of local time. -/
structure DateString where
  weekDay : Int
  month : Int
  date : Int
  year : Int
  deriving DecidableEq, Repr

/-- The method `Date.prototype.toDateString` of the date with time value `t`. -/
def toDateString (localTZA : Int → Int) (t : Int) : DateString :=
  let day := localDay localTZA t
  { weekDay := (day + 4) % 7
    month := (civilFromDay day).month
    date := (civilFromDay day).date
    year := (civilFromDay day).year }

/-- The method `filterTransactions(filter)`, as the list it hands to
`displayFilteredTransactions`; `now` is the reading of `new Date()`. The method reads
`this.transactions` and assigns nothing to it. -/
def filterTransactions {Num : Type} (localTZA : Int → Int)
    (transactions : List (Transaction Num)) (filter : JSString) (now : Int) :
    List (Transaction Num) :=
  if filter = "today".toList then
    transactions.filter fun t =>
      let transactionDate := t.date
      decide (toDateString localTZA transactionDate = toDateString localTZA now)
  else if filter = "week".toList then
    let weekAgo := now - 7 * 24 * 60 * 60 * 1000
    transactions.filter fun t => decide (t.date ≥ weekAgo)
  else if filter = "month".toList then
    let monthAgo := now - 30 * 24 * 60 * 60 * 1000
    transactions.filter fun t => decide (t.date ≥ monthAgo)
  else transactions

/-- A transaction of the given time, for examples. -/
def paymentAt (id date : Int) : Transaction Int :=
  { id := id, description := "Payment to supplier".toList, amount := 100,
    type := "payment".toList, status := "completed".toList, date := date }

/-! ## Keywords of a search command -/

/-- A text cut into pieces of free text with a keyword between each two: the first
piece, then each keyword with the piece behind it. This is the text with the keywords. -/
def withKeywords : JSString → List (JSString × JSString) → JSString
  | first, [] => first
  | first, (keyword, piece) :: rest => first ++ keyword ++ withKeywords piece rest

/-- The pieces of free text alone, joined. -/
def withoutKeywords : JSString → List (JSString × JSString) → JSString
  | first, [] => first
  | first, (_, piece) :: rest => first ++ withoutKeywords piece rest

/-! ## Lemmas on strings -/

theorem isWhiteSpace_asciiLowerChar (c : Char) :
    isWhiteSpace (asciiLowerChar c) = isWhiteSpace c := by
  unfold asciiLowerChar
  split
  · rename_i hc
    obtain ⟨h1, h2⟩ := hc
    have e : c = Char.ofNat c.toNat := (Char.ofNat_toNat c).symm
    generalize c.toNat = n at h1 h2 e
    subst e
    interval_cases n <;> decide
  · rfl

/-- Trimming commutes with the lower-casing of the ASCII letters. -/
theorem trim_asciiToLowerCase (s : JSString) :
    trim (asciiToLowerCase s) = asciiToLowerCase (trim s) := by
  have hcomp : (isWhiteSpace ∘ asciiLowerChar) = isWhiteSpace :=
    funext isWhiteSpace_asciiLowerChar
  simp only [trim, asciiToLowerCase, List.dropWhile_map, hcomp, ← List.map_reverse]

/-- The test `includes` decides whether the pattern is a contiguous block of the string. -/
theorem includes_iff (s pat : JSString) : includes s pat = true ↔ pat <:+: s := by
  induction s with
  | nil =>
    cases pat <;> simp [includes, List.isPrefixOf]
  | cons c s ih =>
    rw [includes, Bool.or_eq_true, ih, List.isPrefixOf_iff_prefix, List.infix_cons_iff]

/-! ## Voice commands -/

/-- The chain of tests of the source performs the action of the first rule of the table
that matches the lowercased, trimmed transcript. -/
theorem processVoiceCommand_eq_specRespond {Num : Type} (h : Host Num)
    (inventory : List (InventoryItem Num)) (t : JSString) :
    processVoiceCommand h inventory t =
      specRespond h inventory (trim (h.toLowerCase t))
        (specClassify (trim (h.toLowerCase t))) := by
  simp only [processVoiceCommand, specClassify, specRules]
  generalize trim (h.toLowerCase t) = cmd
  split_ifs with h1 h2 h3 h4 h5 h6 h7 h8 <;> simp only [Bool.not_eq_true] at * <;>
    simp only [List.find?, *, specRespond]

/-- Two intents with the same action are the same intent: the browser calls tell which
intent was selected. -/
theorem specRespond_injective {Num : Type} (h : Host Num)
    (inventory : List (InventoryItem Num)) (cmd : JSString) (i j : Intent)
    (e : specRespond h inventory cmd i = specRespond h inventory cmd j) : i = j := by
  cases i <;> cases j <;>
    first
    | rfl
    | (exfalso
       simp [specRespond, searchInventory] at e
       try (split at e <;> simp at e))

/-- When no rule of the table matches, the classification is `unrecognized`. -/
theorem specClassify_of_no_match (cmd : JSString)
    (hno : ∀ rule ∈ specRules, rule.2 cmd = false) : specClassify cmd = .unrecognized := by
  have hnone : specRules.find? (fun rule => rule.2 cmd) = none := by
    rw [List.find?_eq_none]
    intro rule hr
    simp [hno rule hr]
  simp [specClassify, hnone]

/-- C1: for every transcript `t` and whatever the host's `toLowerCase` returns,
`processVoiceCommand` performs the action of an intent exactly when that intent belongs
to the first rule, in the fixed order of the phrase table, that matches the transcript
lowercased and trimmed, `trim(lowercase(t))` as line 97 computes it; when no rule
matches, its whole effect is to speak the not-understood prompt. Where lower-casing and
trimming give the same text in either order, the same holds of `lowercase(trim(t))`. -/
theorem processVoiceCommand_first_match {Num : Type} (h : Host Num)
    (inventory : List (InventoryItem Num)) (t : JSString) :
    (∀ i : Intent,
      processVoiceCommand h inventory t =
          specRespond h inventory (trim (h.toLowerCase t)) i ↔
        i = specClassify (trim (h.toLowerCase t))) ∧
    ((∀ rule ∈ specRules, rule.2 (trim (h.toLowerCase t)) = false) →
      processVoiceCommand h inventory t =
        [.speak [.str
          "I didn\x27t understand that command. Say help for available commands.".toList]]) ∧
    (h.toLowerCase (trim t) = trim (h.toLowerCase t) →
      (∀ i : Intent,
        processVoiceCommand h inventory t =
            specRespond h inventory (h.toLowerCase (trim t)) i ↔
          i = specClassify (h.toLowerCase (trim t))) ∧
      ((∀ rule ∈ specRules, rule.2 (h.toLowerCase (trim t)) = false) →
        processVoiceCommand h inventory t =
          [.speak [.str
            "I didn\x27t understand that command. Say help for available commands.".toList]])) := by
  have hmain : (∀ i : Intent,
      processVoiceCommand h inventory t =
          specRespond h inventory (trim (h.toLowerCase t)) i ↔
        i = specClassify (trim (h.toLowerCase t))) ∧
      ((∀ rule ∈ specRules, rule.2 (trim (h.toLowerCase t)) = false) →
        processVoiceCommand h inventory t =
          [.speak [.str
            "I didn\x27t understand that command. Say help for available commands.".toList]]) := by
    refine ⟨fun i => ⟨fun e => ?_, fun e => ?_⟩, fun hno => ?_⟩
    · rw [processVoiceCommand_eq_specRespond] at e
      exact (specRespond_injective h inventory _ _ _ e).symm
    · rw [e, processVoiceCommand_eq_specRespond]
    · rw [processVoiceCommand_eq_specRespond, specClassify_of_no_match _ hno]
      rfl
  refine ⟨hmain.1, hmain.2, fun hcomm => ?_⟩
  rw [hcomm]
  exact hmain

/-- C1, at the transcript `Good Morning` between blanks: no rule matches and the prompt
is spoken; and at `Show Transactions now`, where the third rule is the first to match. -/
theorem processVoiceCommand_first_match_witness :
    (∀ rule ∈ specRules,
      rule.2 (trim (digitHost.toLowerCase " Good Morning ".toList)) = false) ∧
    processVoiceCommand digitHost [] " Good Morning ".toList =
      [.speak [.str
        "I didn\x27t understand that command. Say help for available commands.".toList]] ∧
    digitHost.toLowerCase (trim " Show Transactions now ".toList) =
      trim (digitHost.toLowerCase " Show Transactions now ".toList) ∧
    specClassify (digitHost.toLowerCase (trim " Show Transactions now ".toList)) =
      .viewTransactions ∧
    processVoiceCommand digitHost [] " Show Transactions now ".toList =
      [.speak [.str "Showing transactions".toList], .scrollIntoView "transactions".toList] :=
  ⟨by decide,
   (processVoiceCommand_first_match digitHost [] " Good Morning ".toList).2.1 (by decide),
   by decide, by decide,
   ((((processVoiceCommand_first_match digitHost [] " Show Transactions now ".toList).2.2
      (by decide)).1 .viewTransactions).mpr (by decide)).trans (by decide)⟩

/-- C2 fails as stated: the transcript `Add item, then view inventory` contains
`view inventory`, and the add-item form is opened instead of the inventory shown. -/
theorem processVoiceCommand_view_inventory_counterexample :
    includes (trim (digitHost.toLowerCase "Add item, then view inventory".toList))
        "view inventory".toList = true ∧
    processVoiceCommand digitHost [] "Add item, then view inventory".toList =
      [.speak [.str "Opening add item form".toList], .click "addItem".toList] ∧
    processVoiceCommand digitHost [] "Add item, then view inventory".toList ≠
      [.speak [.str "Showing inventory".toList], .scrollIntoView "inventory".toList] := by
  decide

/-- C2, amended: for every transcript whose lowercased, trimmed text contains
`view inventory` and contains neither `add item` nor `new item`, `processVoiceCommand`
speaks `Showing inventory` and scrolls to the inventory section. -/
theorem processVoiceCommand_view_inventory {Num : Type} (h : Host Num)
    (inventory : List (InventoryItem Num)) (t : JSString)
    (hview : includes (trim (h.toLowerCase t)) "view inventory".toList = true)
    (hadd : includes (trim (h.toLowerCase t)) "add item".toList = false)
    (hnew : includes (trim (h.toLowerCase t)) "new item".toList = false) :
    processVoiceCommand h inventory t =
      [.speak [.str "Showing inventory".toList], .scrollIntoView "inventory".toList] := by
  simp only [processVoiceCommand, hview, hadd, hnew]
  simp

/-- C2 amended, at the transcript `Please view inventory now`. -/
theorem processVoiceCommand_view_inventory_witness :
    includes (trim (digitHost.toLowerCase "Please view inventory now".toList))
        "view inventory".toList = true ∧
    processVoiceCommand digitHost [] "Please view inventory now".toList =
      [.speak [.str "Showing inventory".toList], .scrollIntoView "inventory".toList] :=
  ⟨by decide,
    processVoiceCommand_view_inventory digitHost [] "Please view inventory now".toList
      (by decide) (by decide) (by decide)⟩

/-! ## Payment simulation -/

/-- A draw above the threshold takes the success branch. -/
theorem processPaymentResume_of_gt {Num : Type} (h : Host Num) (s : AppState Num)
    (paymentData : PaymentData) (random : Rat) (now dated : Int) (hr : random > pointOne) :
    processPaymentResume h s paymentData random now dated =
      speak
        (addTransaction { s with paymentStatus := .success }
          { id := now
            description :=
              if paymentData.description ≠ [] then paymentData.description
              else "Payment to ".toList ++ paymentData.recipient
            amount := h.parseFloat paymentData.amount
            type := "payment".toList
            status := "completed".toList
            date := dated })
        [.str "Payment completed successfully".toList] := by
  simp only [processPaymentResume, decide_eq_true hr, if_true]

/-- A draw not above the threshold takes the failure branch. -/
theorem processPaymentResume_of_le {Num : Type} (h : Host Num) (s : AppState Num)
    (paymentData : PaymentData) (random : Rat) (now dated : Int) (hr : random ≤ pointOne) :
    processPaymentResume h s paymentData random now dated =
      speak { s with paymentStatus := .error }
        [.str "Payment failed. Please try again".toList] := by
  have hn : ¬ random > pointOne := not_lt.mpr hr
  simp only [processPaymentResume, decide_eq_false hn]
  rfl

theorem one_half_gt_pointOne : (1 / 2 : Rat) > pointOne := by
  norm_num [pointOne]

theorem zero_le_pointOne : (0 : Rat) ≤ pointOne := by
  norm_num [pointOne]

/-- C3: for every ledger and every payment submission, when the draw indicates success
(`random > 0.1`) the ledger after `processPayment` is one new transaction followed by
the ledger before: the new transaction is completed, of kind payment, carries the
submitted amount, and has the submitted description, or `Payment to <recipient>` when
the description is empty; the status shown is the success state. -/
theorem processPayment_success {Num : Type} (h : Host Num) (s : AppState Num)
    (paymentData : PaymentData) (random : Rat) (now dated : Int) (hr : random > pointOne) :
    ∃ t : Transaction Num,
      (processPayment h s paymentData random now dated).transactions = t :: s.transactions ∧
      t.status = "completed".toList ∧ t.type = "payment".toList ∧
      t.amount = h.parseFloat paymentData.amount ∧
      (paymentData.description ≠ [] → t.description = paymentData.description) ∧
      (paymentData.description = [] →
        t.description = "Payment to ".toList ++ paymentData.recipient) ∧
      (processPayment h s paymentData random now dated).paymentStatus = .success := by
  rw [processPayment, processPaymentResume_of_gt h _ paymentData random now dated hr]
  refine ⟨_, rfl, rfl, rfl, rfl, ?_, ?_, rfl⟩
  · intro hd
    simp [hd]
  · intro hd
    simp [hd]

/-- C3, at the submission of the specification: recipient `Vendor A`, amount `100`,
description `test`, and the draw 1/2. -/
theorem processPayment_success_witness :
    (1 / 2 : Rat) > pointOne ∧
    ∃ t : Transaction Int,
      (processPayment digitHost (emptyState Int)
        { recipient := "Vendor A".toList, amount := "100".toList, description := "test".toList }
        (1 / 2) 1700000000000 1700000000000).transactions = t :: (emptyState Int).transactions ∧
      t.status = "completed".toList ∧ t.type = "payment".toList ∧
      t.amount = 100 ∧ t.description = "test".toList :=
  ⟨one_half_gt_pointOne, by
    obtain ⟨t, h1, h2, h3, h4, h5, _, _⟩ :=
      processPayment_success digitHost (emptyState Int)
        { recipient := "Vendor A".toList, amount := "100".toList, description := "test".toList }
        (1 / 2) 1700000000000 1700000000000 one_half_gt_pointOne
    exact ⟨t, h1, h2, h3, h4.trans (by decide), h5 (by decide)⟩⟩

/-- C4: for every ledger and every payment submission, when the draw indicates failure
(`random <= 0.1`), `processPayment` adds no transaction: the ledger after the call is the
ledger before it, and the status shown is the failed state. -/
theorem processPayment_failure {Num : Type} (h : Host Num) (s : AppState Num)
    (paymentData : PaymentData) (random : Rat) (now dated : Int) (hr : random ≤ pointOne) :
    (processPayment h s paymentData random now dated).transactions = s.transactions ∧
    (processPayment h s paymentData random now dated).paymentStatus = .error := by
  rw [processPayment, processPaymentResume_of_le h _ paymentData random now dated hr]
  exact ⟨rfl, rfl⟩

/-- C4, at the submission of the specification with the draw 0. -/
theorem processPayment_failure_witness :
    (0 : Rat) ≤ pointOne ∧
    (processPayment digitHost (emptyState Int)
      { recipient := "Vendor A".toList, amount := "100".toList, description := "test".toList }
      0 1700000000000 1700000000000).transactions = [] ∧
    (processPayment digitHost (emptyState Int)
      { recipient := "Vendor A".toList, amount := "100".toList, description := "test".toList }
      0 1700000000000 1700000000000).paymentStatus = .error :=
  ⟨zero_le_pointOne,
    processPayment_failure digitHost (emptyState Int)
      { recipient := "Vendor A".toList, amount := "100".toList, description := "test".toList }
      0 1700000000000 1700000000000 zero_le_pointOne⟩

/-- C5 fails as stated: the submission with every field empty, made while the form is at
rest, puts the status element into the processing state and a call in flight; when the
delay has passed with a successful draw, the ledger has gained a transaction. -/
theorem paymentStep_submit_empty_counterexample :
    (paymentStep digitHost (paymentIdle (emptyState Int))
      (.submit { recipient := [], amount := [], description := [] })).app.paymentStatus
        = .processing ∧
    (paymentStep digitHost (paymentIdle (emptyState Int))
      (.submit { recipient := [], amount := [], description := [] })).inFlight
        = [{ recipient := [], amount := [], description := [] }] ∧
    (paymentRun digitHost (paymentIdle (emptyState Int))
      [.submit { recipient := [], amount := [], description := [] },
       .delayElapsed (1 / 2) 1700000000000 1700000000000]).app.transactions.length = 1 := by
  refine ⟨rfl, rfl, ?_⟩
  simp only [paymentRun, List.foldl, paymentStep, paymentIdle, List.nil_append,
    processPaymentResume_of_gt _ _ _ _ _ _ one_half_gt_pointOne]
  rfl

/-- C5, amended: a payment submission whose recipient is empty or whose amount is empty
is not rejected. Submitted while the form is at rest, it puts the status element into
the processing state and one call in flight, with the ledger as it was; when the delay
has passed, a failure draw leaves the ledger as it was and a success draw puts one
transaction in front of it. -/
theorem paymentStep_submit_empty {Num : Type} (h : Host Num) (app : AppState Num)
    (paymentData : PaymentData) (random : Rat) (now dated : Int)
    (_hempty : paymentData.recipient = [] ∨ paymentData.amount = []) :
    (paymentStep h (paymentIdle app) (.submit paymentData)).app.paymentStatus = .processing ∧
    (paymentStep h (paymentIdle app) (.submit paymentData)).inFlight = [paymentData] ∧
    (paymentStep h (paymentIdle app) (.submit paymentData)).app.transactions
      = app.transactions ∧
    (random ≤ pointOne →
      (paymentRun h (paymentIdle app)
        [.submit paymentData, .delayElapsed random now dated]).app.transactions
          = app.transactions) ∧
    (random > pointOne →
      ∃ t, (paymentRun h (paymentIdle app)
        [.submit paymentData, .delayElapsed random now dated]).app.transactions
          = t :: app.transactions) := by
  refine ⟨rfl, rfl, rfl, fun hr => ?_, fun hr => ?_⟩
  · simp only [paymentRun, List.foldl, paymentStep, paymentIdle, List.nil_append,
      processPaymentResume_of_le _ _ _ _ _ _ hr]
    rfl
  · simp only [paymentRun, List.foldl, paymentStep, paymentIdle, List.nil_append,
      processPaymentResume_of_gt _ _ _ _ _ _ hr]
    exact ⟨_, rfl⟩

/-- C5 amended, at the submission with every field empty and the draw 0. -/
theorem paymentStep_submit_empty_witness :
    (paymentStep digitHost (paymentIdle (emptyState Int))
      (.submit { recipient := [], amount := [], description := [] })).app.paymentStatus
        = .processing ∧
    (paymentRun digitHost (paymentIdle (emptyState Int))
      [.submit { recipient := [], amount := [], description := [] },
       .delayElapsed 0 1700000000000 1700000000000]).app.transactions = [] :=
  ⟨(paymentStep_submit_empty digitHost (emptyState Int)
      { recipient := [], amount := [], description := [] } 0 1700000000000 1700000000000
      (Or.inl rfl)).1,
   (paymentStep_submit_empty digitHost (emptyState Int)
      { recipient := [], amount := [], description := [] } 0 1700000000000 1700000000000
      (Or.inl rfl)).2.2.2.1 zero_le_pointOne⟩

/-- C6 fails as stated: after a first submission the status is processing; a second
submission at that moment is taken in, two payments are in flight, and when both draws
succeed the ledger has gained two transactions. -/
theorem paymentStep_second_submit_counterexample :
    (paymentRun digitHost (paymentIdle (emptyState Int))
      [.submit { recipient := "A".toList, amount := "1".toList, description := [] }]
      ).app.paymentStatus = .processing ∧
    (paymentRun digitHost (paymentIdle (emptyState Int))
      [.submit { recipient := "A".toList, amount := "1".toList, description := [] },
       .submit { recipient := "B".toList, amount := "2".toList, description := [] }]
      ).inFlight.length = 2 ∧
    (paymentRun digitHost (paymentIdle (emptyState Int))
      [.submit { recipient := "A".toList, amount := "1".toList, description := [] },
       .submit { recipient := "B".toList, amount := "2".toList, description := [] },
       .delayElapsed (1 / 2) 1700000002000 1700000002000,
       .delayElapsed (1 / 2) 1700000002500 1700000002500]
      ).app.transactions.map (fun t => t.amount) = [2, 1] := by
  refine ⟨rfl, rfl, ?_⟩
  simp only [paymentRun, List.foldl, paymentStep, paymentIdle, List.nil_append,
    List.cons_append, processPaymentResume_of_gt _ _ _ _ _ _ one_half_gt_pointOne]
  decide

/-- C6, amended: a submission that arrives while an earlier payment is processing is not
rejected. From every state whose status is processing, a submit event puts one more call
in flight behind those that wait, keeps the status and leaves the ledger as it is; and
when the delay of the oldest waiting call has passed with a successful draw, that call
puts its transaction in front of the ledger. -/
theorem paymentStep_submit_while_processing {Num : Type} (h : Host Num) (sim : PaymentSim Num)
    (paymentData : PaymentData) (_hproc : sim.app.paymentStatus = .processing) :
    (paymentStep h sim (.submit paymentData)).inFlight = sim.inFlight ++ [paymentData] ∧
    (paymentStep h sim (.submit paymentData)).app.paymentStatus = .processing ∧
    (paymentStep h sim (.submit paymentData)).app.transactions = sim.app.transactions ∧
    (∀ (random : Rat) (now dated : Int) (first : PaymentData) (rest : List PaymentData),
      random > pointOne → sim.inFlight = first :: rest →
      (paymentStep h sim (.delayElapsed random now dated)).inFlight = rest ∧
      ∃ t, t.amount = h.parseFloat first.amount ∧
        (paymentStep h sim (.delayElapsed random now dated)).app.transactions
          = t :: sim.app.transactions) := by
  refine ⟨rfl, rfl, rfl, fun random now dated first rest hr hq => ?_⟩
  constructor
  · simp only [paymentStep, hq]
  · simp only [paymentStep, hq, processPaymentResume_of_gt _ _ _ _ _ _ hr]
    exact ⟨_, rfl, rfl⟩

/-- C6 amended, at the state reached by one submission. -/
theorem paymentStep_submit_while_processing_witness :
    (paymentStep digitHost (paymentIdle (emptyState Int))
      (.submit { recipient := "A".toList, amount := "1".toList, description := [] })
      ).app.paymentStatus = .processing ∧
    (paymentStep digitHost
      (paymentStep digitHost (paymentIdle (emptyState Int))
        (.submit { recipient := "A".toList, amount := "1".toList, description := [] }))
      (.submit { recipient := "B".toList, amount := "2".toList, description := [] })
      ).inFlight =
      [{ recipient := "A".toList, amount := "1".toList, description := [] },
       { recipient := "B".toList, amount := "2".toList, description := [] }] :=
  ⟨rfl,
   (paymentStep_submit_while_processing digitHost
      (paymentStep digitHost (paymentIdle (emptyState Int))
        (.submit { recipient := "A".toList, amount := "1".toList, description := [] }))
      { recipient := "B".toList, amount := "2".toList, description := [] } rfl).1⟩

/-! ## Inventory and ledger -/

/-- The identifiers after a sequence of `addItem` calls: those present before, followed
by the `Date.now()` reading of each call. -/
theorem addItems_ids {Num : Type} (h : Host Num) (calls : List (ItemData × Int × Int))
    (s : AppState Num) :
    (addItems h s calls).inventory.map (fun item => item.id) =
      s.inventory.map (fun item => item.id) ++ calls.map (fun call => call.2.1) := by
  induction calls generalizing s with
  | nil => simp [addItems]
  | cons call calls ih =>
    have e : addItems h s (call :: calls) = addItems h (addItem h s call.1 call.2.1 call.2.2) calls :=
      rfl
    rw [e, ih]
    simp [addItem, speak]

/-- A sequence of `N` calls of `addItem` adds `N` entries. -/
theorem addItems_length {Num : Type} (h : Host Num) (calls : List (ItemData × Int × Int))
    (s : AppState Num) :
    (addItems h s calls).inventory.length = s.inventory.length + calls.length := by
  have e := congrArg List.length (addItems_ids h calls s)
  simpa using e

/-- C7, evaluated where it fails: when the clock shows the same millisecond `c` for the
five `addItem` calls that `generateSampleData` makes in its loop on an empty inventory,
the inventory has five entries and all five carry the identifier `c`; likewise two
`addItem` calls at one clock reading give two entries with one identifier. -/
theorem addItem_ids_collide {Num : Type} (h : Host Num) (c : Int) (a b : ItemData) :
    (generateSampleData h (emptyState Num) (fun _ => c)).inventory.map (fun item => item.id)
      = [c, c, c, c, c] ∧
    ¬ ((generateSampleData h (emptyState Num) (fun _ => c)).inventory.map
        (fun item => item.id)).Nodup ∧
    (addItems h (emptyState Num) [(a, c, c), (b, c, c)]).inventory.map (fun item => item.id)
      = [c, c] ∧
    ¬ ((addItems h (emptyState Num) [(a, c, c), (b, c, c)]).inventory.map
        (fun item => item.id)).Nodup := by
  have e1 : (generateSampleData h (emptyState Num) (fun _ => c)).inventory.map
      (fun item => item.id) = [c, c, c, c, c] := rfl
  have e2 : (addItems h (emptyState Num) [(a, c, c), (b, c, c)]).inventory.map
      (fun item => item.id) = [c, c] := rfl
  refine ⟨e1, ?_, e2, ?_⟩
  · rw [e1]; simp
  · rw [e2]; simp

/-- C8, evaluated where it fails: on an empty ledger, with the clock at the millisecond
`c`, `generateSampleData` leaves the refund dated two days back in front of the payment
dated one day back, so the first entry is older than the second. -/
theorem generateSampleData_oldest_first {Num : Type} (h : Host Num) (c : Int) :
    (generateSampleData h (emptyState Num) (fun _ => c)).transactions.map (fun t => t.date)
      = [c - 172800000, c - 86400000] ∧
    ¬ newestFirst (generateSampleData h (emptyState Num) (fun _ => c)).transactions := by
  have e : (generateSampleData h (emptyState Num) (fun _ => c)).transactions =
      [{ id := c - 2000, description := "Customer refund".toList, amount := h.lit 2500,
         type := "refund".toList, status := "completed".toList, date := c - 172800000 },
       { id := c - 1000, description := "Payment to supplier".toList, amount := h.lit 50000,
         type := "payment".toList, status := "completed".toList, date := c - 86400000 }] := rfl
  constructor
  · rw [e]; rfl
  · rw [e]
    simp [newestFirst]
    omega

/-- C9: for every inventory whose identifiers are pairwise distinct and every identifier
`id` present in it, `deleteItem(id)` removes the one entry with that identifier: the
inventory is `before ++ item :: after` with `item.id = id`, the result is
`before ++ after`, no remaining entry has the identifier, and the count is one less. -/
theorem deleteItem_removes_one {Num : Type} (s : AppState Num) (id : Int)
    (hnodup : (s.inventory.map (fun item => item.id)).Nodup)
    (hmem : id ∈ s.inventory.map (fun item => item.id)) :
    ∃ (before after : List (InventoryItem Num)) (item : InventoryItem Num),
      s.inventory = before ++ item :: after ∧ item.id = id ∧
      (deleteItem s id).inventory = before ++ after ∧
      (∀ other ∈ (deleteItem s id).inventory, other.id ≠ id) ∧
      (deleteItem s id).inventory.length + 1 = s.inventory.length := by
  obtain ⟨item, hitem, hid⟩ := List.mem_map.mp hmem
  obtain ⟨before, after, hsplit⟩ := List.append_of_mem hitem
  rw [hsplit, List.map_append, List.map_cons, hid] at hnodup
  have hparts := List.nodup_append.mp hnodup
  have hafter : ∀ x ∈ after, x.id ≠ id := by
    intro x hx hxe
    have hcons := List.nodup_cons.mp hparts.2.1
    exact hcons.1 (List.mem_map.mpr ⟨x, hx, hxe⟩)
  have hbefore : ∀ x ∈ before, x.id ≠ id := by
    intro x hx hxe
    exact hparts.2.2 (List.mem_map.mpr ⟨x, hx, hxe⟩) (List.mem_cons_self _ _)
  have hres : (deleteItem s id).inventory = before ++ after := by
    simp only [deleteItem, speak, hsplit, List.filter_append, List.filter_cons, hid]
    have hb : before.filter (fun item => item.id != id) = before :=
      List.filter_eq_self.mpr (fun x hx => by simpa using hbefore x hx)
    have ha : after.filter (fun item => item.id != id) = after :=
      List.filter_eq_self.mpr (fun x hx => by simpa using hafter x hx)
    simp [hb, ha]
  refine ⟨before, after, item, hsplit, hid, hres, ?_, ?_⟩
  · rw [hres]
    intro other hother
    rcases List.mem_append.mp hother with hb | ha
    · exact hbefore other hb
    · exact hafter other ha
  · rw [hres, hsplit]
    simp
    omega

/-- C9, at an inventory with the identifiers 1, 2, 3 and the identifier 2. -/
theorem deleteItem_removes_one_witness :
    (threeItems.map (fun item => item.id)).Nodup ∧
    (2 : Int) ∈ threeItems.map (fun item => item.id) ∧
    ∃ (before after : List (InventoryItem Int)) (item : InventoryItem Int),
      threeItems = before ++ item :: after ∧ item.id = 2 ∧
      (deleteItem { emptyState Int with inventory := threeItems } 2).inventory
        = before ++ after ∧
      (∀ other ∈ (deleteItem { emptyState Int with inventory := threeItems } 2).inventory,
        other.id ≠ 2) ∧
      (deleteItem { emptyState Int with inventory := threeItems } 2).inventory.length + 1
        = threeItems.length :=
  ⟨by decide, by decide,
   deleteItem_removes_one { emptyState Int with inventory := threeItems } 2
     (by decide) (by decide)⟩

/-- C10: for every inventory and every identifier `id` that no entry carries,
`deleteItem(id)` and `updateItem(id, updates)` leave the inventory as it is; `updateItem`
changes nothing at all, `deleteItem` changes nothing but the spoken notice. -/
theorem deleteItem_updateItem_absent {Num : Type} (s : AppState Num) (id : Int)
    (updates : ItemUpdates Num) (habsent : ∀ item ∈ s.inventory, item.id ≠ id) :
    (deleteItem s id).inventory = s.inventory ∧
    (deleteItem s id).transactions = s.transactions ∧
    (deleteItem s id).paymentStatus = s.paymentStatus ∧
    updateItem s id updates = s := by
  refine ⟨?_, rfl, rfl, ?_⟩
  · simp only [deleteItem, speak]
    exact List.filter_eq_self.mpr (fun x hx => by simpa using habsent x hx)
  · have hnone : s.inventory.findIdx? (fun item => item.id == id) = none :=
      List.findIdx?_eq_none_iff.mpr (fun x hx => by simpa using habsent x hx)
    simp only [updateItem, hnone]

/-- C10, at an inventory with the identifiers 1, 2, 3 and the identifier 7. -/
theorem deleteItem_updateItem_absent_witness :
    (∀ item ∈ threeItems, item.id ≠ 7) ∧
    (deleteItem { emptyState Int with inventory := threeItems } 7).inventory = threeItems ∧
    updateItem { emptyState Int with inventory := threeItems } 7
        { id := none, name := some "Desk".toList, price := some 10, quantity := some 1,
          category := none, createdAt := none }
      = { emptyState Int with inventory := threeItems } :=
  ⟨by decide,
   (deleteItem_updateItem_absent { emptyState Int with inventory := threeItems } 7
      { id := none, name := some "Desk".toList, price := some 10, quantity := some 1,
        category := none, createdAt := none } (by decide)).1,
   (deleteItem_updateItem_absent { emptyState Int with inventory := threeItems } 7
      { id := none, name := some "Desk".toList, price := some 10, quantity := some 1,
        category := none, createdAt := none } (by decide)).2.2.2⟩

/-! ## Transaction filter -/

/-- The parts of a day of a 400-year era, named: the year of the era lies between 0 and
399, the day of the year between 0 and 365, and the day is recovered from them. -/
theorem year_split (doe c doc cyc doq yoc doy yoe : Int)
    (hc : c = if doe / 36524 ≤ 3 then doe / 36524 else 3)
    (hdoc : doc = doe - c * 36524) (hcyc : cyc = doc / 1461) (hdoq : doq = doc % 1461)
    (hyoc : yoc = if doq / 365 ≤ 3 then doq / 365 else 3)
    (hdoy : doy = doq - yoc * 365) (hyoe : yoe = c * 100 + cyc * 4 + yoc)
    (h0 : 0 ≤ doe) (h1 : doe < 146097) :
    0 ≤ yoe ∧ yoe ≤ 399 ∧ 0 ≤ doy ∧ doy ≤ 365 ∧
      yoe * 365 + yoe / 4 - yoe / 100 + doy = doe := by
  have hc0 : 0 ≤ c ∧ c ≤ 3 := by split_ifs at hc <;> omega
  have hdoc0 : 0 ≤ doc ∧ doc ≤ 36524 := by split_ifs at hc <;> omega
  have hcyc0 : 0 ≤ cyc ∧ cyc ≤ 24 := by omega
  have hdoq0 : 0 ≤ doq ∧ doq ≤ 1460 := by omega
  have hsplit : doc = 1461 * cyc + doq := by omega
  have hyoc0 : 0 ≤ yoc ∧ yoc ≤ 3 := by split_ifs at hyoc <;> omega
  have hdoy0 : 0 ≤ doy ∧ doy ≤ 365 := by split_ifs at hyoc <;> omega
  have h4 : yoe / 4 = 25 * c + cyc := by omega
  have h100 : yoe / 100 = c := by omega
  refine ⟨by omega, by omega, hdoy0.1, hdoy0.2, ?_⟩
  rw [h4, h100]
  omega

theorem yearOfEra_dayOfYear (doe : Int) (h0 : 0 ≤ doe) (h1 : doe < 146097) :
    0 ≤ yearOfEra doe ∧ yearOfEra doe ≤ 399 ∧ 0 ≤ dayOfYear doe ∧ dayOfYear doe ≤ 365 ∧
      yearOfEra doe * 365 + yearOfEra doe / 4 - yearOfEra doe / 100 + dayOfYear doe = doe :=
  year_split doe (centuryOfEra doe) (dayOfCentury doe) (dayOfCentury doe / 1461)
    (dayOfCentury doe % 1461) (yearOfCycle (dayOfCentury doe % 1461)) (dayOfYear doe)
    (yearOfEra doe) rfl rfl rfl rfl rfl rfl rfl h0 h1

theorem dayFromCivil_civilFromEra (era doe : Int) (h0 : 0 ≤ doe) (h1 : doe < 146097) :
    dayFromCivil (civilFromEra era doe) = era * 146097 + doe - 719468 := by
  obtain ⟨hy0, hy1, hd0, hd1, hsum⟩ := yearOfEra_dayOfYear doe h0 h1
  simp only [dayFromCivil, civilFromEra, monthIndex]
  generalize yearOfEra doe = yoe at *
  generalize dayOfYear doe = doy at *
  have hmp : 0 ≤ (5 * doy + 2) / 153 ∧ (5 * doy + 2) / 153 ≤ 11 := by omega
  generalize (5 * doy + 2) / 153 = mp at *
  have hdiv : (era * 400 + yoe) / 400 = era := by omega
  have hmod : (era * 400 + yoe) % 400 = yoe := by omega
  split_ifs <;>
    first
    | omega
    | (simp only [add_sub_cancel_right, add_zero, sub_zero, hdiv, hmod]; omega)

/-- The day number is recovered from its calendar date: two days with the same calendar
date are the same day. -/
theorem dayFromCivil_civilFromDay (day : Int) : dayFromCivil (civilFromDay day) = day := by
  have h0 : 0 ≤ (day + 719468) % 146097 := Int.emod_nonneg _ (by norm_num)
  have h1 : (day + 719468) % 146097 < 146097 := Int.emod_lt_of_pos _ (by norm_num)
  rw [civilFromDay, dayFromCivil_civilFromEra _ _ h0 h1]
  omega

/-- The texts of `toDateString` of two times agree exactly when the two times fall on the
same local calendar day. -/
theorem toDateString_eq_iff (localTZA : Int → Int) (a b : Int) :
    toDateString localTZA a = toDateString localTZA b ↔
      localDay localTZA a = localDay localTZA b := by
  constructor
  · intro hab
    simp only [toDateString, DateString.mk.injEq] at hab
    obtain ⟨_, hm, hd, hy⟩ := hab
    have hciv : civilFromDay (localDay localTZA a) = civilFromDay (localDay localTZA b) := by
      cases ha : civilFromDay (localDay localTZA a)
      cases hb : civilFromDay (localDay localTZA b)
      simp only [ha, hb] at hm hd hy
      simp [hm, hd, hy]
    have hday := congrArg dayFromCivil hciv
    simpa only [dayFromCivil_civilFromDay] using hday
  · intro hab
    simp only [toDateString, hab]

/-- C11: for every ledger and current time, `filterTransactions('today')` yields exactly
the transactions whose timestamp falls on the same local calendar day as the current
time, in ledger order; a transaction dated on another calendar day is left out, however
close to the current time it lies; the result is a new list and the ledger is only read. -/
theorem filterTransactions_today {Num : Type} (localTZA : Int → Int)
    (transactions : List (Transaction Num)) (now : Int) :
    filterTransactions localTZA transactions "today".toList now =
      transactions.filter
        (fun t => decide (localDay localTZA t.date = localDay localTZA now)) ∧
    (∀ t ∈ transactions, localDay localTZA t.date ≠ localDay localTZA now →
      t ∉ filterTransactions localTZA transactions "today".toList now) ∧
    (filterTransactions localTZA transactions "today".toList now).Sublist transactions := by
  have hfilter : filterTransactions localTZA transactions "today".toList now =
      transactions.filter
        (fun t => decide (localDay localTZA t.date = localDay localTZA now)) := by
    simp only [filterTransactions, if_true, toDateString_eq_iff]
  refine ⟨hfilter, ?_, ?_⟩
  · intro t _ hne hmem
    rw [hfilter, List.mem_filter] at hmem
    exact hne (of_decide_eq_true hmem.2)
  · rw [hfilter]
    exact List.filter_sublist _

/-- C11, in the time zone five and a half hours ahead of UTC, at one o'clock in the
morning of 5 November 2026: the payment made half an hour before is shown, the payment
made two hours before, on 4 November, is not. -/
theorem filterTransactions_today_witness :
    localDay (fun _ => 19800000) 1793813400000 ≠ localDay (fun _ => 19800000) 1793820600000 ∧
    1793820600000 - 1793813400000 < msPerDay ∧
    paymentAt 2 1793813400000 ∉
      filterTransactions (fun _ => 19800000)
        [paymentAt 1 1793818800000, paymentAt 2 1793813400000] "today".toList 1793820600000 ∧
    filterTransactions (fun _ => 19800000)
        [paymentAt 1 1793818800000, paymentAt 2 1793813400000] "today".toList 1793820600000
      = [paymentAt 1 1793818800000] :=
  ⟨by decide, by decide,
   (filterTransactions_today (fun _ => 19800000)
      [paymentAt 1 1793818800000, paymentAt 2 1793813400000] 1793820600000).2.1
      (paymentAt 2 1793813400000) (by decide) (by decide),
   by decide⟩

/-- C12 fails as stated: a transaction dated one second after the current time is in the
result of the week filter and in the result of the month filter. -/
theorem filterTransactions_later_counterexample :
    (1793820600000 : Int) < (paymentAt 1 1793820601000).date ∧
    paymentAt 1 1793820601000 ∈
      filterTransactions (fun _ => 19800000) [paymentAt 1 1793820601000] "week".toList
        1793820600000 ∧
    paymentAt 1 1793820601000 ∈
      filterTransactions (fun _ => 19800000) [paymentAt 1 1793820601000] "month".toList
        1793820600000 := by
  decide

/-- C12, amended: for every ledger and current time `now`, `filterTransactions('week')`
yields exactly the transactions whose timestamp is not earlier than `now` less 7 times 24
hours, and `filterTransactions('month')` exactly those whose timestamp is not earlier
than `now` less 30 times 24 hours, in ledger order; a transaction older than the
threshold is not in the result, and one dated later than `now` is. -/
theorem filterTransactions_week_month {Num : Type} (localTZA : Int → Int)
    (transactions : List (Transaction Num)) (now : Int) :
    filterTransactions localTZA transactions "week".toList now =
      transactions.filter (fun t => decide (now - 7 * (24 * 3600000) ≤ t.date)) ∧
    filterTransactions localTZA transactions "month".toList now =
      transactions.filter (fun t => decide (now - 30 * (24 * 3600000) ≤ t.date)) ∧
    (∀ t, t ∈ filterTransactions localTZA transactions "week".toList now ↔
      t ∈ transactions ∧ ¬ t.date < now - 7 * (24 * 3600000)) ∧
    (∀ t, t ∈ filterTransactions localTZA transactions "month".toList now ↔
      t ∈ transactions ∧ ¬ t.date < now - 30 * (24 * 3600000)) ∧
    (∀ t ∈ transactions, now ≤ t.date →
      t ∈ filterTransactions localTZA transactions "week".toList now ∧
      t ∈ filterTransactions localTZA transactions "month".toList now) := by
  have hweek : filterTransactions localTZA transactions "week".toList now =
      transactions.filter (fun t => decide (now - 7 * (24 * 3600000) ≤ t.date)) := by
    have hne : ¬ ("week".toList = "today".toList) := by decide
    simp only [filterTransactions, hne, if_false, if_true, ge_iff_le]
    norm_num
  have hmonth : filterTransactions localTZA transactions "month".toList now =
      transactions.filter (fun t => decide (now - 30 * (24 * 3600000) ≤ t.date)) := by
    have hne1 : ¬ ("month".toList = "today".toList) := by decide
    have hne2 : ¬ ("month".toList = "week".toList) := by decide
    simp only [filterTransactions, hne1, hne2, if_false, if_true, ge_iff_le]
    norm_num
  refine ⟨hweek, hmonth, fun t => ?_, fun t => ?_, fun t ht hnow => ⟨?_, ?_⟩⟩
  · rw [hweek, List.mem_filter, decide_eq_true_eq, not_lt]
  · rw [hmonth, List.mem_filter, decide_eq_true_eq, not_lt]
  · rw [hweek, List.mem_filter, decide_eq_true_eq]
    exact ⟨ht, by omega⟩
  · rw [hmonth, List.mem_filter, decide_eq_true_eq]
    exact ⟨ht, by omega⟩

/-- C12 amended, at a ledger with a payment dated one second after the current time, one
dated exactly seven days before it, and one a millisecond older. -/
theorem filterTransactions_week_month_witness :
    (1793820600000 : Int) ≤ (paymentAt 1 1793820601000).date ∧
    paymentAt 1 1793820601000 ∈
      filterTransactions (fun _ => 19800000)
        [paymentAt 1 1793820601000, paymentAt 2 1793215800000, paymentAt 3 1793215799999]
        "week".toList 1793820600000 ∧
    filterTransactions (fun _ => 19800000)
        [paymentAt 1 1793820601000, paymentAt 2 1793215800000, paymentAt 3 1793215799999]
        "week".toList 1793820600000
      = [paymentAt 1 1793820601000, paymentAt 2 1793215800000] :=
  ⟨by decide,
   ((filterTransactions_week_month (fun _ => 19800000)
      [paymentAt 1 1793820601000, paymentAt 2 1793215800000, paymentAt 3 1793215799999]
      1793820600000).2.2.2.2 (paymentAt 1 1793820601000) (by decide) (by decide)).1,
   by decide⟩

/-! ## Inventory search -/

/-- C13: for every inventory and query term, `searchInventory` matches exactly the items
whose lowercased name or lowercased category contains the lowercased term. It reports
`No items found ...` exactly when no item matches; otherwise it reports `Found N items
...`, with `N` the number of matching items and `N` at least 1, and filters the display.
It is a function of the inventory, which it only reads. -/
theorem searchInventory_reports {Num : Type} (h : Host Num)
    (inventory : List (InventoryItem Num)) (term : JSString) :
    (searchInventory h inventory term =
        [.speak [.str "No items found matching ".toList, .str term]] ↔
      ∀ item ∈ inventory,
        ¬ (h.toLowerCase term <:+: h.toLowerCase item.name ∨
           h.toLowerCase term <:+: h.toLowerCase item.category)) ∧
    ((∃ item ∈ inventory,
        h.toLowerCase term <:+: h.toLowerCase item.name ∨
        h.toLowerCase term <:+: h.toLowerCase item.category) →
      1 ≤ inventory.countP (fun item =>
          decide (h.toLowerCase term <:+: h.toLowerCase item.name ∨
                  h.toLowerCase term <:+: h.toLowerCase item.category)) ∧
      searchInventory h inventory term =
        [.speak [.str "Found ".toList,
            .len (inventory.countP (fun item =>
              decide (h.toLowerCase term <:+: h.toLowerCase item.name ∨
                      h.toLowerCase term <:+: h.toLowerCase item.category))),
            .str " items matching ".toList, .str term],
         .filterInventoryDisplay term]) := by
  have hpred : (fun item : InventoryItem Num =>
      includes (h.toLowerCase item.name) (h.toLowerCase term) ||
        includes (h.toLowerCase item.category) (h.toLowerCase term)) =
      (fun item => decide (h.toLowerCase term <:+: h.toLowerCase item.name ∨
        h.toLowerCase term <:+: h.toLowerCase item.category)) := by
    funext item
    rw [Bool.eq_iff_iff]
    simp only [Bool.or_eq_true, includes_iff, decide_eq_true_eq]
  have hlen : ∀ p : InventoryItem Num → Bool,
      (inventory.filter p).length = inventory.countP p :=
    fun p => (List.countP_eq_length_filter p inventory).symm
  have hpos : (0 < inventory.countP (fun item =>
      decide (h.toLowerCase term <:+: h.toLowerCase item.name ∨
        h.toLowerCase term <:+: h.toLowerCase item.category))) ↔
      ∃ item ∈ inventory, h.toLowerCase term <:+: h.toLowerCase item.name ∨
        h.toLowerCase term <:+: h.toLowerCase item.category := by
    rw [List.countP_pos_iff]
    simp only [decide_eq_true_eq]
  constructor
  · constructor
    · intro hsay item hitem hmatch
      have hp := hpos.mpr ⟨item, hitem, hmatch⟩
      simp only [searchInventory, hpred, hlen, gt_iff_lt, hp, if_true] at hsay
      simp at hsay
    · intro hnone
      have hzero : ¬ 0 < inventory.countP (fun item =>
          decide (h.toLowerCase term <:+: h.toLowerCase item.name ∨
            h.toLowerCase term <:+: h.toLowerCase item.category)) := by
        rw [hpos]
        rintro ⟨item, hitem, hmatch⟩
        exact hnone item hitem hmatch
      simp only [searchInventory, hpred, hlen, gt_iff_lt, hzero, if_false]
  · intro hsome
    have hp := hpos.mpr hsome
    refine ⟨hp, ?_⟩
    simp only [searchInventory, hpred, hlen, gt_iff_lt, hp, if_true]

/-- C13, at the inventory with a laptop, a book and a T-shirt and the term `BOOK`, which
matches the name `Book` and the category `books` of one item. -/
theorem searchInventory_reports_witness :
    (∃ item ∈ threeItems,
      digitHost.toLowerCase "BOOK".toList <:+: digitHost.toLowerCase item.name ∨
      digitHost.toLowerCase "BOOK".toList <:+: digitHost.toLowerCase item.category) ∧
    searchInventory digitHost threeItems "BOOK".toList =
      [.speak [.str "Found ".toList, .len 1, .str " items matching ".toList,
         .str "BOOK".toList],
       .filterInventoryDisplay "BOOK".toList] :=
  ⟨by decide,
   ((searchInventory_reports digitHost threeItems "BOOK".toList).2 (by decide)).2.trans (by decide)⟩

/-! ## Keywords of a search command -/

/-- Dropping the rest of a match is the same as scanning on behind it. -/
theorem replaceSearchItem_skip (k : Nat) (s : JSString) :
    replaceSearchItem k s = replaceSearchItem 0 (s.drop k) := by
  induction k generalizing s with
  | zero => rfl
  | succ k ih =>
    cases s with
    | nil => rfl
    | cons c s => simpa [replaceSearchItem] using ih s

/-- A text cut into pieces starts with its first piece. -/
theorem prefix_withKeywords (first : JSString) (rest : List (JSString × JSString)) :
    first <+: withKeywords first rest := by
  cases rest with
  | nil => exact List.prefix_refl _
  | cons kp rest =>
    obtain ⟨keyword, piece⟩ := kp
    simp only [withKeywords, List.append_assoc]
    exact List.prefix_append _ _

/-- The scan of `replace(/search|item/g, '')` cuts the text into pieces of free text
with a keyword between each two, and returns the pieces joined; no piece contains a
keyword. -/
theorem replaceSearchItem_pieces_of_length (n : Nat) :
    ∀ s : JSString, s.length = n →
    ∃ (first : JSString) (rest : List (JSString × JSString)),
      s = withKeywords first rest ∧
      replaceSearchItem 0 s = withoutKeywords first rest ∧
      (∀ kp ∈ rest, kp.1 = "search".toList ∨ kp.1 = "item".toList) ∧
      (∀ piece ∈ first :: rest.map (fun kp => kp.2),
        ¬ "search".toList <:+: piece ∧ ¬ "item".toList <:+: piece) := by
  induction n using Nat.strong_induction_on with
  | _ n ih =>
    intro s hn
    cases s with
    | nil =>
      refine ⟨[], [], rfl, rfl, by simp, ?_⟩
      intro piece hp
      simp only [List.map_nil, List.mem_singleton] at hp
      subst hp
      constructor <;> simp [List.infix_nil]
    | cons c s =>
      by_cases h1 : "search".toList.isPrefixOf (c :: s) = true
      · obtain ⟨r, hr⟩ := List.isPrefixOf_iff_prefix.mp h1
        have hdrop : s.drop 5 = r := by
          have h2 := congrArg (List.drop 6) hr
          simpa using h2.symm
        have hlen : r.length < n := by
          have h3 := congrArg List.length hr
          simp at h3
          simp at hn
          omega
        obtain ⟨first, rest, hw, hrep, hk, hp⟩ := ih r.length hlen r rfl
        refine ⟨[], ("search".toList, first) :: rest, ?_, ?_, ?_, ?_⟩
        · simp only [withKeywords, List.nil_append]
          rw [← hw, hr]
        · have hstep : replaceSearchItem 0 (c :: s) = replaceSearchItem 5 s := by
            simp only [replaceSearchItem, h1, if_true]
          rw [hstep, replaceSearchItem_skip, hdrop, hrep]
          rfl
        · intro kp hkp
          rcases List.mem_cons.mp hkp with hkp | hkp
          · exact Or.inl (by rw [hkp])
          · exact hk kp hkp
        · intro piece hpiece
          rcases List.mem_cons.mp hpiece with hpiece | hpiece
          · subst hpiece
            constructor <;> simp [List.infix_nil]
          · exact hp piece (by simpa using hpiece)
      · by_cases h2 : "item".toList.isPrefixOf (c :: s) = true
        · obtain ⟨r, hr⟩ := List.isPrefixOf_iff_prefix.mp h2
          have hdrop : s.drop 3 = r := by
            have h3 := congrArg (List.drop 4) hr
            simpa using h3.symm
          have hlen : r.length < n := by
            have h3 := congrArg List.length hr
            simp at h3
            simp at hn
            omega
          obtain ⟨first, rest, hw, hrep, hk, hp⟩ := ih r.length hlen r rfl
          refine ⟨[], ("item".toList, first) :: rest, ?_, ?_, ?_, ?_⟩
          · simp only [withKeywords, List.nil_append]
            rw [← hw, hr]
          · have hstep : replaceSearchItem 0 (c :: s) = replaceSearchItem 3 s := by
              simp only [replaceSearchItem, h1, h2, if_true]
              simp
            rw [hstep, replaceSearchItem_skip, hdrop, hrep]
            rfl
          · intro kp hkp
            rcases List.mem_cons.mp hkp with hkp | hkp
            · exact Or.inr (by rw [hkp])
            · exact hk kp hkp
          · intro piece hpiece
            rcases List.mem_cons.mp hpiece with hpiece | hpiece
            · subst hpiece
              constructor <;> simp [List.infix_nil]
            · exact hp piece (by simpa using hpiece)
        · have hlen : s.length < n := by
            simp at hn
            omega
          obtain ⟨first, rest, hw, hrep, hk, hp⟩ := ih s.length hlen s rfl
          have hpre : c :: first <+: c :: s := by
            have h3 := prefix_withKeywords first rest
            rw [← hw] at h3
            exact (List.prefix_cons_inj c).mpr h3
          refine ⟨c :: first, rest, ?_, ?_, hk, ?_⟩
          · cases rest with
            | nil => simpa [withKeywords] using hw
            | cons kp rest =>
              obtain ⟨keyword, piece⟩ := kp
              simp only [withKeywords] at hw ⊢
              rw [hw]
              simp
          · have hstep : replaceSearchItem 0 (c :: s) = c :: replaceSearchItem 0 s := by
              simp only [replaceSearchItem, h1, h2]
              simp
            rw [hstep, hrep]
            cases rest with
            | nil => rfl
            | cons kp rest =>
              obtain ⟨keyword, piece⟩ := kp
              rfl
          · intro piece hpiece
            rcases List.mem_cons.mp hpiece with hpiece | hpiece
            · subst hpiece
              have hfirst := hp first (List.mem_cons_self _ _)
              constructor
              · intro hin
                rcases List.infix_cons_iff.mp hin with hin | hin
                · exact h1 (List.isPrefixOf_iff_prefix.mpr (hin.trans hpre))
                · exact hfirst.1 hin
              · intro hin
                rcases List.infix_cons_iff.mp hin with hin | hin
                · exact h2 (List.isPrefixOf_iff_prefix.mpr (hin.trans hpre))
                · exact hfirst.2 hin
            · exact hp piece (List.mem_cons_of_mem _ hpiece)

/-- The scan of `replace(/search|item/g, '')` on any text: see
`replaceSearchItem_pieces_of_length`. -/
theorem replaceSearchItem_pieces (s : JSString) :
    ∃ (first : JSString) (rest : List (JSString × JSString)),
      s = withKeywords first rest ∧
      replaceSearchItem 0 s = withoutKeywords first rest ∧
      (∀ kp ∈ rest, kp.1 = "search".toList ∨ kp.1 = "item".toList) ∧
      (∀ piece ∈ first :: rest.map (fun kp => kp.2),
        ¬ "search".toList <:+: piece ∧ ¬ "item".toList <:+: piece) :=
  replaceSearchItem_pieces_of_length s.length s rfl

/-- C14 fails as stated: the transcript `search item itsearchem` is classified as
search-item, and the term handed to `searchInventory` is `item`, which contains `item`. -/
theorem processVoiceCommand_search_term_counterexample :
    specClassify (trim (digitHost.toLowerCase "search item itsearchem".toList)) = .searchItem ∧
    processVoiceCommand digitHost threeItems "search item itsearchem".toList =
      searchInventory digitHost threeItems "item".toList ∧
    trim (replaceSearchItem 0 (trim (digitHost.toLowerCase "search item itsearchem".toList)))
      = "item".toList ∧
    includes "item".toList "item".toList = true := by
  decide

/-- C14, amended: for every transcript classified as search-item, the query term handed
to `searchInventory` is the lowercased, trimmed transcript with the keywords `search` and
`item` stripped in one scan from the left and the surrounding white space trimmed: the
transcript is pieces of free text with a keyword between each two, none of the pieces
contains `search` or `item`, and the term is the pieces joined and trimmed. Where two
pieces meet, the term can contain a keyword. -/
theorem processVoiceCommand_search_term {Num : Type} (h : Host Num)
    (inventory : List (InventoryItem Num)) (t : JSString)
    (hclass : specClassify (trim (h.toLowerCase t)) = .searchItem) :
    ∃ (first : JSString) (rest : List (JSString × JSString)),
      trim (h.toLowerCase t) = withKeywords first rest ∧
      (∀ kp ∈ rest, kp.1 = "search".toList ∨ kp.1 = "item".toList) ∧
      (∀ piece ∈ first :: rest.map (fun kp => kp.2),
        ¬ "search".toList <:+: piece ∧ ¬ "item".toList <:+: piece) ∧
      processVoiceCommand h inventory t =
        searchInventory h inventory (trim (withoutKeywords first rest)) := by
  obtain ⟨first, rest, hw, hrep, hk, hp⟩ := replaceSearchItem_pieces (trim (h.toLowerCase t))
  refine ⟨first, rest, hw, hk, hp, ?_⟩
  rw [processVoiceCommand_eq_specRespond, hclass, ← hrep]
  rfl

/-- C14 amended, at the transcript `Search item Laptop`: the term is `laptop`. -/
theorem processVoiceCommand_search_term_witness :
    specClassify (trim (digitHost.toLowerCase "Search item Laptop".toList)) = .searchItem ∧
    ∃ (first : JSString) (rest : List (JSString × JSString)),
      trim (digitHost.toLowerCase "Search item Laptop".toList) = withKeywords first rest ∧
      (∀ kp ∈ rest, kp.1 = "search".toList ∨ kp.1 = "item".toList) ∧
      (∀ piece ∈ first :: rest.map (fun kp => kp.2),
        ¬ "search".toList <:+: piece ∧ ¬ "item".toList <:+: piece) ∧
      processVoiceCommand digitHost threeItems "Search item Laptop".toList =
        searchInventory digitHost threeItems (trim (withoutKeywords first rest)) :=
  ⟨by decide,
   processVoiceCommand_search_term digitHost threeItems "Search item Laptop".toList
     (by decide)⟩

end StreetsMart
